import Mathlib

/-!
Shallow embedding of the `shaderdev` ingestion pipeline:
the OBJ-style parser `internal/obj/obj.go` (functions `toElem`, `toIndex`,
`adjustIndex`, `parseFace`, `Stream`, `Decode` and the `Obj` accessors
`VertPos`/`VertTex`/`VertNor`) and the mesh-deduplication loop of
`loadModel` in the main package.

Modelling conventions:
- An input stream is its list of text lines (Go reads with
  `bufio.Scanner` + `bufio.ScanLines`, so the stream is processed strictly
  line by line); scanner I/O failures are outside the embedding.
- Go `float32` attribute values never influence any verified property
  (only their count and parse success/failure do), so an attribute record
  stores the accepted numeral strings; `strconv.ParseFloat` (standard
  library) is modelled by its accept set on ordinary decimal literals.
- Fallible Go paths return `Except`; a Go run-time panic (nil function
  call in `Stream`, out-of-range slice index in `loadModel`) is modelled
  as a distinguished failure (`ErrKind.nilEmit`, or `Option.none` for the
  deduplication stage), kept apart from ordinarily returned errors.
- Machine integers: indices travel through Go `int64`/`int` after a
  bounds-checked `ParseInt(s, 10, 32)`, so every later operation
  (`res += attLen`, `res--`) is exact integer arithmetic; we use `Int`
  with the 32-bit range check placed exactly where Go performs it.
-/

namespace obj

/-- Error kinds of the parser, mirroring the distinct `fmt.Errorf` sites of
`obj.go` plus the two modelled run-time panics. The spec's taxonomy calls
the field-count / non-numeric / arity / elision kinds *SyntaxError* and the
zero / out-of-range index kinds *IndexError* (see `isSynKind`, `isIdxKind`). -/
inductive ErrKind where
  /-- `v requires 3 or 4 values` -/
  | countPos
  /-- `vt requires 2 or 3 values` -/
  | countTex
  /-- `vn requires 3 values` -/
  | countNor
  /-- `f requires 3 vertices` -/
  | countFace
  /-- `strconv.ParseFloat` failure on an attribute field -/
  | badFloat
  /-- `vertices cannot have more than three attributes` -/
  | tooManyAtts
  /-- `all vertices must have the same number of attributes` -/
  | arityMM
  /-- `all texture indices must be present or elided` -/
  | elisionMM
  /-- `strconv.ParseInt` failure inside `toIndex` (non-numeric index field) -/
  | badInt
  /-- `0 is not a valid index` (from `toIndex`) -/
  | zeroIdx
  /-- `relative index %v does not resolve to an attribute (i.e. too negative)` -/
  | tooNeg
  /-- `index %v does not resolve to an attribute (i.e. too large)` -/
  | tooLarge
  /-- call of one of `Stream`'s unbound (nil) emit sinks: a Go run-time panic -/
  | nilEmit
  /-- `parseFace` reading `vertices[0]` of an empty field list: a Go run-time panic -/
  | emptyFacePanic
deriving DecidableEq

/-- The kinds the spec's error taxonomy (§7) classifies as SyntaxError. -/
def isSynKind : ErrKind → Bool
  | .countPos | .countTex | .countNor | .countFace => true
  | .badFloat | .tooManyAtts | .arityMM | .elisionMM | .badInt => true
  | _ => false

/-- The kinds the spec's error taxonomy (§7) classifies as IndexError. -/
def isIdxKind : ErrKind → Bool
  | .zeroIdx | .tooNeg | .tooLarge => true
  | _ => false

/-- A parse failure as surfaced by `Decode`/`Stream`: the 1-based source
line number (Go wraps every error in `fmt.Errorf("%v: ...", line, ...)`)
and the kind of the violated rule. -/
structure DecodeErr where
  line : Nat
  kind : ErrKind
deriving DecidableEq

/-- Element classification, `obj.go` `elem` constants. -/
inductive Elem where
  | com | pos | tex | nor | fac | unk
deriving DecidableEq

/-- Whitespace as used by Go `strings.Fields` (`unicode.IsSpace`, the
ASCII cases plus U+0085 and U+00A0). -/
def isSpc (c : Char) : Bool :=
  c = ' ' || c = '\t' || c = '\n' || c = '\x0b' || c = '\x0c' || c = '\r' ||
  c = '\u0085' || c = ' '

/-- Helper for `fieldsOf`: accumulates the current field (reversed). -/
def fieldsAux : List Char → List Char → List String
  | [], acc => if acc = [] then [] else [String.mk acc.reverse]
  | c :: cs, acc =>
    if isSpc c then
      (if acc = [] then fieldsAux cs [] else String.mk acc.reverse :: fieldsAux cs [])
    else fieldsAux cs (c :: acc)

/-- Go `strings.Fields`: split a line at whitespace runs, no empty fields. -/
def fieldsOf (s : String) : List String := fieldsAux s.toList []

/-- Helper for `splitSlash`. -/
def splitSlashAux : List Char → List Char → List String
  | [], acc => [String.mk acc.reverse]
  | c :: cs, acc =>
    if c = '/' then String.mk acc.reverse :: splitSlashAux cs []
    else splitSlashAux cs (c :: acc)

/-- Go `strings.Split(v, "/")`: split at every slash, keeping empty parts
(`"2//2"` gives `["2", "", "2"]`, `""` gives `[""]`). -/
def splitSlash (s : String) : List String := splitSlashAux s.toList []

/-- `strings.HasPrefix(s, "#")`. -/
def hashFirst (s : String) : Bool :=
  match s.toList with
  | '#' :: _ => true
  | _ => false

/-- `obj.go` `toElem`: classify a record by its first field. -/
def toElem (s : String) : Elem :=
  if hashFirst s then .com
  else if s = "v" then .pos
  else if s = "vt" then .tex
  else if s = "vn" then .nor
  else if s = "f" then .fac
  else .unk

/-- Go `strconv.ParseInt(s, 10, 32)`: optional sign, nonempty decimal
digits, value within the signed 32-bit range (a range overflow is an
error, which is all `toIndex` looks at). -/
def parseInt32 (s : String) : Option Int :=
  let cs := s.toList
  let (neg, ds) :=
    match cs with
    | '-' :: t => (true, t)
    | '+' :: t => (false, t)
    | t => (false, t)
  if ds = [] || !ds.all Char.isDigit then none
  else
    let v : Nat := ds.foldl (fun a c => a * 10 + (c.toNat - 48)) 0
    let i : Int := if neg then -(v : Int) else (v : Int)
    if i < -(2 ^ 31) || (2 ^ 31 : Int) ≤ i then none else some i

/-- Modelled from Go `strconv.ParseFloat(s, 32)` (standard library):
accept set restricted to ordinary decimal literals
`[sign](digits[.digits*] | .digits+)[(e|E)[sign]digits+]`; the special
forms (`inf`/`nan`/hex floats/underscores) are omitted — no claim touches
them, only parse success/failure on plain numerals is observed. -/
def parseFloatOk (s : String) : Bool :=
  let cs := s.toList
  let cs :=
    match cs with
    | '+' :: t => t
    | '-' :: t => t
    | t => t
  let (d1, r1) := cs.span Char.isDigit
  let (mOk, r2) :=
    match r1 with
    | '.' :: r =>
      let (d2, rr) := r.span Char.isDigit
      (!(d1 = [] && d2 = []), rr)
    | _ => (!(d1 = []), r1)
  mOk &&
    (match r2 with
     | [] => true
     | 'e' :: r | 'E' :: r =>
       let r :=
         match r with
         | '+' :: t => t
         | '-' :: t => t
         | t => t
       !(r = []) && r.all Char.isDigit
     | _ => false)

/-- `obj.go` `toIndex`: parse a raw face index; a parse failure or the
value `0` is an error. -/
def toIndex (s : String) : Except ErrKind Int :=
  match parseInt32 s with
  | none => .error .badInt
  | some 0 => .error .zeroIdx
  | some v => .ok v

/-- `obj.go` `adjustIndex`: resolve a raw index against the current
collection length. Go computes `res := attIdx`; a negative `res` gains
`attLen` (error if still negative), otherwise `res` is decremented; the
final check is `res > attLen` — exactly as written in the source (NOT
`res >= attLen`). Here the shared final check is inlined into the two
branches with the branch's `res` substituted. -/
def adjustIndex (attIdx : Int) (attLen : Nat) : Except ErrKind Int :=
  if attIdx < 0 then
    (if attIdx + (attLen : Int) < 0 then .error .tooNeg
     else if attIdx + (attLen : Int) > (attLen : Int) then .error .tooLarge
     else .ok (attIdx + (attLen : Int)))
  else
    (if attIdx - 1 > (attLen : Int) then .error .tooLarge
     else .ok (attIdx - 1))

/-- A face vertex's resolved `(positionIndex, texcoordIndex, normalIndex)`. -/
abbrev Triple := Int × Int × Int

/-- One face: exactly three vertex index triples (`[3][3]int`). -/
abbrev FaceT := Triple × Triple × Triple

/-- `obj.go` `Obj`: the decoded document. Attribute records keep the
accepted numeral strings (their `float32` values never matter to any
claim; counts and defaults do). -/
structure Obj where
  Pos : List (List String)
  Tex : List (List String)
  Nor : List (List String)
  Face : List FaceT
deriving DecidableEq

/-- The empty document `var o Obj`. -/
def obj0 : Obj := ⟨[], [], [], []⟩

/-- Go slice read `l[i]` with an `int` index: out of range is a run-time
panic, modelled as `none`. -/
def idxGet? {α : Type} (l : List α) (i : Int) : Option α :=
  if h : 0 ≤ i ∧ i.toNat < l.length then some (l.get ⟨i.toNat, h.2⟩) else none

/-- Select vertex `v` (0, 1 or 2) of a face entry, Go `o.Face[face][vertex]`. -/
def triAt (f : FaceT) (v : Nat) : Triple :=
  match v with
  | 0 => f.1
  | 1 => f.2.1
  | _ => f.2.2

/-- `obj.go` `(*Obj).VertPos`: `&o.Pos[o.Face[face][vertex][0]]`;
`none` models the panic on an out-of-range access. -/
def VertPos (o : Obj) (face vertex : Nat) : Option (List String) :=
  match o.Face.get? face with
  | none => none
  | some f => idxGet? o.Pos (triAt f vertex).1

/-- `obj.go` `(*Obj).VertTex`: `&o.Tex[o.Face[face][vertex][1]]`. -/
def VertTex (o : Obj) (face vertex : Nat) : Option (List String) :=
  match o.Face.get? face with
  | none => none
  | some f => idxGet? o.Tex (triAt f vertex).2.1

/-- `obj.go` `(*Obj).VertNor`: `&o.Nor[o.Face[face][vertex][2]]`. -/
def VertNor (o : Obj) (face vertex : Nat) : Option (List String) :=
  match o.Face.get? face with
  | none => none
  | some f => idxGet? o.Nor (triAt f vertex).2.2

/-- The attribute-vector fill loop shared by the `v`/`vt`/`vn` cases of
`Decode` and `Stream`: `for i, v := range fields[1:] { ParseFloat; vec[i] = v }`
over an initial vector holding the format-mandated defaults. -/
def fillVec : List String → Nat → List String → Except ErrKind (List String)
  | v, _, [] => .ok v
  | v, i, a :: rest =>
    if parseFloatOk a then fillVec (v.set i a) (i + 1) rest else .error .badFloat

/-- Per-vertex parse of `Decode`'s `addFace` loop body (obj.go:289-323):
arity check against the first vertex's template, position index always,
texcoord by arity/elision, normal at arity 3; unparsed slots stay `0`
(the Go zero value of `[3]int`). -/
def addFaceVert (numAtt : Nat) (skipTex : Bool) (v : List String) : Except ErrKind Triple :=
  if v.length ≠ numAtt then .error .arityMM
  else do
    let p ← toIndex (v.getD 0 "")
    match numAtt with
    | 2 => do
      let t ← toIndex (v.getD 1 "")
      pure (p, t, 0)
    | 3 => do
      let t ←
        (if skipTex then
          (if v.getD 1 "" ≠ "" then Except.error ErrKind.elisionMM else pure 0)
         else toIndex (v.getD 1 ""))
      let n ← toIndex (v.getD 2 "")
      pure (p, t, n)
    | _ => pure (p, 0, 0)

/-- The index-resolution pass of `addFace` (obj.go:325-338): each of the
three components of a stored triple is passed through `adjustIndex`
against the current collection lengths — including the `0` sentinel slots
of elided attributes. -/
def adjustTriple (t : Triple) (lp lt ln : Nat) : Except ErrKind Triple := do
  let p ← adjustIndex t.1 lp
  let tt ← adjustIndex t.2.1 lt
  let n ← adjustIndex t.2.2 ln
  pure (p, tt, n)

/-- `Decode`'s `addFace` closure (obj.go:263-341) on its three vertex
fields: split on slashes (each at most 3 parts, checked in order), take
vertex 0 as the arity/elision template, parse raw triples for the three
vertices, then resolve every component against the current collection
lengths and append the face. -/
def addFace (o : Obj) (fa fb fc : String) : Except ErrKind Obj :=
  let va := splitSlash fa
  let vb := splitSlash fb
  let vc := splitSlash fc
  if va.length > 3 then .error .tooManyAtts
  else if vb.length > 3 then .error .tooManyAtts
  else if vc.length > 3 then .error .tooManyAtts
  else
    let numAtt := va.length
    let skipTex := numAtt == 3 && va.getD 1 "" == ""
    do
      let ta ← addFaceVert numAtt skipTex va
      let tb ← addFaceVert numAtt skipTex vb
      let tc ← addFaceVert numAtt skipTex vc
      let pa ← adjustTriple ta o.Pos.length o.Tex.length o.Nor.length
      let pb ← adjustTriple tb o.Pos.length o.Tex.length o.Nor.length
      let pc ← adjustTriple tc o.Pos.length o.Tex.length o.Nor.length
      pure { o with Face := o.Face ++ [(pa, pb, pc)] }

/-- One dispatch step of `Decode`'s scan loop (obj.go:354-413) on a
non-blank line's first field and remaining fields. Comments and
unsupported elements are tolerated (`.ok o`). -/
def decodeStep (o : Obj) (f : String) (args : List String) : Except ErrKind Obj :=
  match toElem f with
  | .com => .ok o
  | .pos =>
    if args.length < 3 ∨ 4 < args.length then .error .countPos
    else do
      let v ← fillVec ["0", "0", "0", "1"] 0 args
      pure { o with Pos := o.Pos ++ [v] }
  | .tex =>
    if args.length < 2 ∨ 3 < args.length then .error .countTex
    else do
      let v ← fillVec ["0", "0", "0"] 0 args
      pure { o with Tex := o.Tex ++ [v] }
  | .nor =>
    if args.length ≠ 3 then .error .countNor
    else do
      let v ← fillVec ["0", "0", "0"] 0 args
      pure { o with Nor := o.Nor ++ [v] }
  | .fac =>
    if args.length ≠ 3 then .error .countFace
    else
      match args with
      | [a, b, c] => addFace o a b c
      | _ => .error .countFace
  | .unk => .ok o

/-- Processing of one whole line by `Decode`: blank lines are skipped. -/
def lineStep (o : Obj) (l : String) : Except ErrKind Obj :=
  match fieldsOf l with
  | [] => .ok o
  | f :: args => decodeStep o f args

/-- `Decode`'s scan loop: 1-based line counting (`line++` before
processing), abort on the first failing line, wrapping its error with the
line number. -/
def decodeLoop : Obj → Nat → List String → Except DecodeErr Obj
  | o, _, [] => .ok o
  | o, n, l :: rest =>
    match lineStep o l with
    | .ok o2 => decodeLoop o2 (n + 1) rest
    | .error k => .error ⟨n + 1, k⟩

/-- `obj.go` `Decode`: whole-document decode of an input stream (given as
its list of lines); returns the completed document or the first error. -/
def Decode (lines : List String) : Except DecodeErr Obj :=
  decodeLoop obj0 0 lines

/-- Split every vertex field of a face on slashes, rejecting (in order)
any vertex with more than three parts — the first loop of `parseFace`
(obj.go:104-110). -/
def splitVerts : List String → Except ErrKind (List (List String))
  | [] => .ok []
  | f :: rest =>
    let v := splitSlash f
    if v.length > 3 then .error .tooManyAtts
    else do
      let vs ← splitVerts rest
      pure (v :: vs)

/-- Per-vertex validation of `parseFace` (obj.go:119-154): identical
checks to `addFaceVert`, but every parsed index is discarded (the local
`vertex [3]int` is never stored anywhere). -/
def pfVert (numAtt : Nat) (skipTex : Bool) (v : List String) : Except ErrKind Unit :=
  if v.length ≠ numAtt then .error .arityMM
  else do
    let _ ← toIndex (v.getD 0 "")
    match numAtt with
    | 2 => do
      let _ ← toIndex (v.getD 1 "")
      pure ()
    | 3 => do
      (if skipTex then
        (if v.getD 1 "" ≠ "" then Except.error ErrKind.elisionMM else pure ())
       else do
        let _ ← toIndex (v.getD 1 "")
        pure ())
      let _ ← toIndex (v.getD 2 "")
      pure ()
    | _ => pure ()

/-- Validation loop of `parseFace` over all vertices (vertex 0 included,
re-checked against its own template). -/
def pfAll (numAtt : Nat) (skipTex : Bool) : List (List String) → Except ErrKind Unit
  | [] => pure ()
  | v :: rest => do
    pfVert numAtt skipTex v
    pfAll numAtt skipTex rest

/-- `obj.go` `parseFace` (the face parser of the callback mode `Stream`):
`face := *_face` is read, the vertices are split and validated, no index
is ever resolved against a collection length (the signature has no
lengths at all), and `*_face = face` writes the untouched value back.
`.emptyFacePanic` models the Go run-time panic of `vertices[0]` on an
empty field list (unreachable from `Stream`, which checks the count). -/
def parseFaceGo (fields : List String) (face : List Triple) : Except ErrKind (List Triple) := do
  let vs ← splitVerts fields
  match vs with
  | [] => Except.error ErrKind.emptyFacePanic
  | v0 :: _ =>
    let numAtt := v0.length
    let skipTex := numAtt == 3 && v0.getD 1 "" == ""
    pfAll numAtt skipTex vs
    pure face

/-- One dispatch step of `Stream`'s scan loop (obj.go:180-244) on a
non-blank line. `none` means "continue scanning"; `some k` aborts with
`k`. Every successfully parsed `v`/`vt`/`vn`/`f` element reaches a call
of the corresponding emit sink — but `emitPos`/`emitTex`/`emitNor`/
`emitFace` are declared (obj.go:161-164) and never assigned, so the call
is a nil-function invocation: the `.nilEmit` failure. -/
def streamStep (face : List Triple) (f : String) (args : List String) : Option ErrKind :=
  match toElem f with
  | .com => none
  | .pos =>
    if args.length < 3 ∨ 4 < args.length then some .countPos
    else
      match fillVec ["0", "0", "0", "1"] 0 args with
      | .error k => some k
      | .ok _ => some .nilEmit
  | .tex =>
    if args.length < 2 ∨ 3 < args.length then some .countTex
    else
      match fillVec ["0", "0", "0"] 0 args with
      | .error k => some k
      | .ok _ => some .nilEmit
  | .nor =>
    if args.length ≠ 3 then some .countNor
    else
      match fillVec ["0", "0", "0"] 0 args with
      | .error k => some k
      | .ok _ => some .nilEmit
  | .fac =>
    if args.length ≠ 3 then some .countFace
    else
      match parseFaceGo args face with
      | .error k => some k
      | .ok _ => some .nilEmit
  | .unk => none

/-- `Stream`'s scan loop: the reused `face` buffer is threaded (it is
never updated, since every successful parse aborts at the nil emit). -/
def streamLoop : List Triple → Nat → List String → Except DecodeErr Unit
  | _, _, [] => .ok ()
  | face, n, l :: rest =>
    match fieldsOf l with
    | [] => streamLoop face (n + 1) rest
    | f :: args =>
      match streamStep face f args with
      | none => streamLoop face (n + 1) rest
      | some k => .error ⟨n + 1, k⟩

/-- `obj.go` `Stream`: the callback-emitting mode, as written (with its
four emit sinks unbound). -/
def Stream (lines : List String) : Except DecodeErr Unit :=
  streamLoop [] 0 lines

/-- A line whose first field classifies as a position, texcoord, normal
or face element. -/
def isElemLine (l : String) : Bool :=
  match fieldsOf l with
  | [] => false
  | f :: _ =>
    match toElem f with
    | .pos | .tex | .nor | .fac => true
    | _ => false

/-- A line at which `Stream` reaches one of its emit calls: an element
line whose payload parses without error. -/
def lineEmits (l : String) : Bool :=
  match fieldsOf l with
  | [] => false
  | f :: args => streamStep [] f args = some .nilEmit

/-- The flat GPU mesh accumulated by `loadModel` (main package `model`):
flat attribute arrays plus the shared element index buffer. -/
structure Model where
  pos : List (List String)
  nor : List (List String)
  tex : List (List String)
  idx : List Nat
deriving DecidableEq

/-- The empty flat mesh. -/
def model0 : Model := ⟨[], [], [], []⟩

/-- The `knownVerts` map of `loadModel`, modelled as an association list
with unique keys (first-match lookup). -/
def kvLookup : List (Triple × Nat) → Triple → Option Nat
  | [], _ => none
  | (t, v) :: rest, q => if t = q then some v else kvLookup rest q

/-- Deduplication state: the `knownVerts` map plus the mesh grown so far. -/
structure DSt where
  known : List (Triple × Nat)
  m : Model
deriving DecidableEq

/-- One iteration of `loadModel`'s dedup loop body (part_000:74-97) on a
single face-vertex triple: reuse a known flat index, or assign the next
flat index and append the referenced attribute records, gated on the
document's `Tex`/`Nor` collections being non-empty. `none` models the Go
run-time panic of an out-of-range slice access. -/
def dedupVert (o : Obj) (st : DSt) (t : Triple) : Option DSt :=
  match kvLookup st.known t with
  | some kv => some ⟨st.known, { st.m with idx := st.m.idx ++ [kv] }⟩
  | none =>
    let i := st.m.pos.length
    match idxGet? o.Pos t.1 with
    | none => none
    | some pv =>
      match (if o.Tex.length > 0 then (idxGet? o.Tex t.2.1).map (st.m.tex ++ [·]) else some st.m.tex) with
      | none => none
      | some tex2 =>
        match (if o.Nor.length > 0 then (idxGet? o.Nor t.2.2).map (st.m.nor ++ [·]) else some st.m.nor) with
        | none => none
        | some nor2 =>
          some ⟨(t, i) :: st.known,
                { pos := st.m.pos ++ [pv], nor := nor2, tex := tex2, idx := st.m.idx ++ [i] }⟩

/-- The dedup loop over a sequence of face-vertex triples. -/
def dedupGo (o : Obj) : DSt → List Triple → Option DSt
  | st, [] => some st
  | st, t :: ts =>
    match dedupVert o st t with
    | none => none
    | some st2 => dedupGo o st2 ts

/-- The face-vertex triples of a document in visit order: `loadModel`
iterates faces in declaration order and, inside each face, its three
vertices in order — i.e. the flattening of `o.Face`. -/
def faceTriples : List FaceT → List Triple
  | [] => []
  | (a, b, c) :: fs => a :: b :: c :: faceTriples fs

/-- The mesh-building stage of `loadModel` (part_000:65-100), applied to
an already-decoded document: run the dedup loop from the empty state;
`none` models the Go run-time panic on an out-of-range attribute access. -/
def loadMesh (o : Obj) : Option Model :=
  (dedupGo o ⟨[], model0⟩ (faceTriples o.Face)).map DSt.m

end obj

/-- Decidable equality of `Except` results, so that concrete runs of the
embedded functions can be checked by `decide`. -/
instance {ε α : Type} [DecidableEq ε] [DecidableEq α] : DecidableEq (Except ε α) := fun a b =>
  match a, b with
  | .ok x, .ok y =>
    if h : x = y then .isTrue (by rw [h]) else .isFalse (fun hh => h (Except.ok.inj hh))
  | .error x, .error y =>
    if h : x = y then .isTrue (by rw [h]) else .isFalse (fun hh => h (Except.error.inj hh))
  | .ok _, .error _ => .isFalse (fun hh => Except.noConfusion hh)
  | .error _, .ok _ => .isFalse (fun hh => Except.noConfusion hh)

namespace obj

/-- Scenario A input (spec §8): three positions, then a plain
positions-only face. -/
def scenALines : List String := ["v 0 0 0", "v 1 0 0", "v 0 1 0", "f 1 2 3"]

/-- The document `Decode` actually returns on `scenALines`. -/
def scenAObj : Obj :=
  ⟨[["0", "0", "0", "1"], ["1", "0", "0", "1"], ["0", "1", "0", "1"]], [], [],
   [((0, -1, -1), (1, -1, -1), (2, -1, -1))]⟩

/-- One declared position, then a face whose raw index 2 resolves to 1 —
equal to the collection length, outside `[0, 1)`. -/
def offByOneLines : List String := ["v 0 0 0", "f 2 2 2"]

/-- The document `Decode` actually returns on `offByOneLines`. -/
def offByOneObj : Obj :=
  ⟨[["0", "0", "0", "1"]], [], [], [((1, -1, -1), (1, -1, -1), (1, -1, -1))]⟩

/-- Scenario B, relative form: three positions and `f -1 -2 -3`. -/
def relNegLines : List String := ["v 0 0 0", "v 1 0 0", "v 0 1 0", "f -1 -2 -3"]

/-- Scenario B, absolute form: three positions and `f 3 2 1`. -/
def relPosLines : List String := ["v 0 0 0", "v 1 0 0", "v 0 1 0", "f 3 2 1"]

/-- Scenario D, template-first order: vertex 0 declares a texcoord, vertex
1 elides it. -/
def elideMixALines : List String := ["f 1/1/1 2//2 3/3/3"]

/-- Scenario D, elision-first order: vertex 0 elides the texcoord, vertex
1 declares one. -/
def elideMixBLines : List String := ["f 2//2 1/1/1 3//3"]

/-- A stream declaring texcoords while its face elides them. -/
def mixedTexLines : List String :=
  ["v 0 0 0", "v 0 0 0", "v 0 0 0", "vt 0 0", "f 1 2 3"]

/-- The document `Decode` actually returns on `mixedTexLines`: non-empty
`Tex`, but every face texcoord component is the adjusted sentinel `-1`. -/
def mixedTexObj : Obj :=
  ⟨[["0", "0", "0", "1"], ["0", "0", "0", "1"], ["0", "0", "0", "1"]],
   [["0", "0", "0"]], [],
   [((0, -1, -1), (1, -1, -1), (2, -1, -1))]⟩

/-- Scenario C witness input: one valid position, then `f 0 1 2`. -/
def zeroFaceLines : List String := ["v 0 0 0", "f 0 1 2"]

/-- The accumulated document after the first line of `zeroFaceLines`. -/
def zeroFacePre : Obj := ⟨[["0", "0", "0", "1"]], [], [], []⟩

/-- A small decodable document on which the dedup run completes. -/
def smallDocObj : Obj :=
  ⟨[["0", "0", "0", "1"]], [], [], [((0, -1, -1), (0, -1, -1), (0, -1, -1))]⟩

/-- The flat mesh the dedup stage produces from `smallDocObj`. -/
def smallDocMesh : Model := ⟨[["0", "0", "0", "1"]], [], [], [0, 0, 0]⟩

/-- Invariant of the dedup loop after processing the triples `seen`:
the `knownVerts` map holds exactly the distinct seen triples (each once),
assigns flat indices below the flat position count, the flat position
count equals the map size, every emitted element index is in range, and
one element index was emitted per seen triple. -/
def Inv (st : DSt) (seen : List Triple) : Prop :=
  (∀ t, (kvLookup st.known t).isSome = true ↔ t ∈ seen) ∧
  (st.known.map Prod.fst).Nodup ∧
  st.known.length = st.m.pos.length ∧
  (∀ p ∈ st.known, p.2 < st.m.pos.length) ∧
  (∀ i ∈ st.m.idx, i < st.m.pos.length) ∧
  st.m.idx.length = seen.length

end obj

namespace obj

theorem decodeLoop_cons (o : Obj) (n : Nat) (l : String) (rest : List String) :
    decodeLoop o n (l :: rest) =
      match lineStep o l with
      | .ok o2 => decodeLoop o2 (n + 1) rest
      | .error k => .error ⟨n + 1, k⟩ := rfl

theorem lineStep_v (o : Obj) :
    lineStep o "v 0 0 0" = .ok { o with Pos := o.Pos ++ [["0", "0", "0", "1"]] } := rfl

theorem lineStep_f012 (o : Obj) : lineStep o "f 0 1 2" = .error .zeroIdx := rfl

theorem decodeLoop_vrep (n : Nat) : ∀ (o : Obj) (m : Nat) (rest : List String),
    decodeLoop o m (List.replicate n "v 0 0 0" ++ rest) =
      decodeLoop { o with Pos := o.Pos ++ List.replicate n ["0", "0", "0", "1"] } (m + n) rest := by
  induction n with
  | zero =>
    intro o m rest
    simp
  | succ k ih =>
    intro o m rest
    rw [List.replicate_succ, List.cons_append, decodeLoop_cons, lineStep_v]
    show decodeLoop _ (m + 1) _ = _
    rw [ih]
    have h1 : (o.Pos ++ [["0", "0", "0", "1"]]) ++ List.replicate k ["0", "0", "0", "1"] =
        o.Pos ++ List.replicate (k + 1) ["0", "0", "0", "1"] := by
      rw [List.append_assoc, List.singleton_append, ← List.replicate_succ]
    have h2 : m + 1 + k = m + (k + 1) := by omega
    rw [h1, h2]

/-- C6: a raw source index equal to 0 is always rejected: `toIndex` turns
any field parsing to the integer 0 into the zero-index error, and for any
number of valid position declarations, decoding them followed by
`f 0 1 2` fails at that face line (1-based number) with the zero-index
IndexError — no document is returned. -/
theorem zero_index_always_rejected :
    (∀ s : String, parseInt32 s = some 0 → toIndex s = .error .zeroIdx) ∧
    (∀ n : Nat,
      Decode (List.replicate n "v 0 0 0" ++ ["f 0 1 2"]) =
        .error ⟨n + 1, .zeroIdx⟩) ∧
    isIdxKind .zeroIdx = true := by
  refine ⟨?_, ?_, rfl⟩
  · intro s h
    simp [toIndex, h]
  · intro n
    show decodeLoop obj0 0 _ = _
    rw [decodeLoop_vrep n obj0 0 ["f 0 1 2"], decodeLoop_cons, lineStep_f012]
    simp

/-- C6 witness: `toIndex "0"` is the zero-index error, and one position
followed by `f 0 1 2` fails at line 2 with it. -/
theorem zero_index_always_rejected_wit :
    toIndex "0" = Except.error ErrKind.zeroIdx ∧
    Decode (List.replicate 1 "v 0 0 0" ++ ["f 0 1 2"]) =
      Except.error ⟨1 + 1, ErrKind.zeroIdx⟩ :=
  ⟨zero_index_always_rejected.1 "0" (by decide), zero_index_always_rejected.2.1 1⟩

/-- C2 counterexample: on Scenario A's input the decoded face triples are
NOT `(0,0,0), (1,0,0), (2,0,0)` — the texcoord/normal components of the
stored triples are `-1`, not the claimed sentinel `0`. -/
theorem scenA_triples_not_zero_sentinel :
    Decode scenALines = .ok scenAObj ∧
    scenAObj.Face ≠ [((0, 0, 0), (1, 0, 0), (2, 0, 0))] := by
  constructor
  · decide
  · decide

/-- C2 (amended): a component slot for an attribute absent from the
source vertex holds the raw sentinel 0, which the unconditional
resolution pass maps to `-1` (`adjustIndex 0 n` decrements 0 and the
bound check accepts `-1`); Scenario A therefore decodes to the stored
triples `(0,-1,-1), (1,-1,-1), (2,-1,-1)`. -/
theorem sentinel_resolves_to_neg_one :
    (∀ n : Nat, adjustIndex 0 n = .ok (-1)) ∧
    Decode scenALines = .ok scenAObj ∧
    scenAObj.Face = [((0, -1, -1), (1, -1, -1), (2, -1, -1))] := by
  refine ⟨?_, by decide, by decide⟩
  intro n
  simp only [adjustIndex]
  rw [if_neg (by omega : ¬((0 : Int) < 0)), if_neg (by omega : ¬((0 : Int) - 1 > (n : Int)))]
  norm_num

/-- C1 (divergence witness for the code bug): `adjustIndex` accepts a
resolved value equal to the collection length (its final check is
`res > attLen`, not `res >= attLen`), so for every n the positive raw
index n+1 resolves to n — outside `[0, n)` — without error; concretely,
`Decode` accepts `f 2 2 2` after a single position declaration, returning
a document whose face position components equal `Pos.length`, on which
the accessor `VertPos` then goes out of bounds. -/
theorem decode_accepts_index_equal_to_length :
    (∀ n : Nat, adjustIndex ((n : Int) + 1) n = .ok (n : Int)) ∧
    Decode offByOneLines = .ok offByOneObj ∧
    offByOneObj.Pos.length = 1 ∧
    (triAt (offByOneObj.Face.getD 0 ((0, 0, 0), (0, 0, 0), (0, 0, 0))) 0).1 =
      (offByOneObj.Pos.length : Int) ∧
    VertPos offByOneObj 0 0 = none := by
  refine ⟨?_, by decide, by decide, by decide, by decide⟩
  intro n
  simp only [adjustIndex]
  rw [if_neg (by omega : ¬((n : Int) + 1 < 0)),
    if_neg (by omega : ¬((n : Int) + 1 - 1 > (n : Int)))]
  congr 1
  omega

/-- C7: a negative raw index `-k` against a collection of `n` entries
(for `1 ≤ k ≤ n`) resolves to `n - k`, identically to the positive
absolute index `n - k + 1`; concretely, after three positions the face
`f -1 -2 -3` decodes to exactly the same result as `f 3 2 1`. -/
theorem negative_index_matches_absolute :
    (∀ n k : Nat, 1 ≤ k → k ≤ n →
      adjustIndex (-(k : Int)) n = .ok ((n : Int) - k) ∧
      adjustIndex ((n : Int) - k + 1) n = .ok ((n : Int) - k)) ∧
    Decode relNegLines = Decode relPosLines ∧
    (Decode relNegLines).map Obj.Face =
      .ok [((2, -1, -1), (1, -1, -1), (0, -1, -1))] := by
  refine ⟨?_, by decide, by decide⟩
  intro n k h1 h2
  constructor
  · simp only [adjustIndex]
    rw [if_pos (by omega : (-(k : Int)) < 0),
      if_neg (by omega : ¬(-(k : Int) + (n : Int) < 0)),
      if_neg (by omega : ¬(-(k : Int) + (n : Int) > (n : Int)))]
    congr 1
    omega
  · simp only [adjustIndex]
    rw [if_neg (by omega : ¬((n : Int) - k + 1 < 0)),
      if_neg (by omega : ¬((n : Int) - k + 1 - 1 > (n : Int)))]
    congr 1
    omega

/-- C7 witness: instantiated at a collection of 3 entries and `k = 2`. -/
theorem negative_index_matches_absolute_wit :
    adjustIndex (-(2 : Int)) 3 = .ok ((3 : Int) - 2) ∧
    adjustIndex ((3 : Int) - 2 + 1) 3 = .ok ((3 : Int) - 2) :=
  negative_index_matches_absolute.1 3 2 (by decide) (by decide)

/-- C9 (divergence witness for the code bug): `Decode` succeeds on a
stream that declares a texcoord while its face elides texcoords; the
returned document has a non-empty `Tex` yet stores `-1` as the faces'
texcoord components, so the dedup loop's `o.Tex[it]` access and the
accessor `VertTex` go out of bounds (a Go run-time panic, `none` here);
likewise the off-by-one document makes `VertPos` go out of bounds. -/
theorem decoded_doc_breaks_consumer_accesses :
    Decode mixedTexLines = .ok mixedTexObj ∧
    mixedTexObj.Tex.length = 1 ∧
    (triAt (mixedTexObj.Face.getD 0 ((0, 0, 0), (0, 0, 0), (0, 0, 0))) 0).2.1 = -1 ∧
    VertTex mixedTexObj 0 0 = none ∧
    loadMesh mixedTexObj = none ∧
    Decode offByOneLines = .ok offByOneObj ∧
    VertPos offByOneObj 0 0 = none := by
  refine ⟨by decide, by decide, by decide, by decide, by decide, by decide, by decide⟩

theorem exbind_ok {ε α β : Type} (a : α) (f : α → Except ε β) :
    (Except.ok a >>= f : Except ε β) = f a := rfl

theorem exbind_err {ε α β : Type} (e : ε) (f : α → Except ε β) :
    (Except.error e >>= f : Except ε β) = .error e := rfl

/-- C8: within one face, a vertex whose slash-arity differs from vertex
0's template is rejected with the arity SyntaxError; under an elided
template (`p//n`), a vertex carrying a texcoord index is rejected with
the elision SyntaxError; both orders of mixing `1/1/1` with `2//2` on one
face line make `Decode` fail at that line with a SyntaxError (the
elision-first order with the elision error itself; the template-first
order surfaces the inconsistency as the non-numeric-field error on the
empty texcoord sub-field). -/
theorem face_consistency_is_enforced :
    (∀ (na : Nat) (st : Bool) (v : List String),
      v.length ≠ na → addFaceVert na st v = .error .arityMM) ∧
    (∀ (v0 tf nf : String) (p : Int),
      toIndex v0 = .ok p → tf ≠ "" →
      addFaceVert 3 true [v0, tf, nf] = .error .elisionMM) ∧
    Decode elideMixALines = .error ⟨1, .badInt⟩ ∧
    Decode elideMixBLines = .error ⟨1, .elisionMM⟩ ∧
    isSynKind .badInt = true ∧ isSynKind .elisionMM = true := by
  refine ⟨?_, ?_, by decide, by decide, rfl, rfl⟩
  · intro na st v h
    simp only [addFaceVert]
    rw [if_pos h]
  · intro v0 tf nf p hp hne
    simp [addFaceVert, hp, hne, exbind_ok, exbind_err]

/-- C8 witness: an arity-2 vertex against an arity-3 template, and a
texcoord-carrying vertex against an elided template. -/
theorem face_consistency_is_enforced_wit :
    addFaceVert 3 false ["1", "1"] = .error .arityMM ∧
    addFaceVert 3 true ["1", "1", "1"] = .error .elisionMM :=
  ⟨face_consistency_is_enforced.1 3 false ["1", "1"] (by decide),
   face_consistency_is_enforced.2.1 "1" "1" "1" 1 (by decide) (by decide)⟩

/-- C10: whenever `parseFace` (the face parser of the callback mode)
succeeds, the face it hands back is exactly the value it was given on
entry — the indices it parses and validates are dropped, and (by its very
signature, which receives no collection lengths) no absolute/relative
resolution happens in this mode. -/
theorem parseFace_leaves_face_unchanged :
    ∀ (fields : List String) (face r : List Triple),
      parseFaceGo fields face = .ok r → r = face := by
  intro fields face r h
  simp only [parseFaceGo] at h
  cases hs : splitVerts fields with
  | error e =>
    rw [hs, exbind_err] at h
    exact absurd h (by simp)
  | ok vs =>
    rw [hs, exbind_ok] at h
    cases vs with
    | nil => exact absurd h (by simp)
    | cons v0 rest =>
      simp only at h
      cases hp : pfAll v0.length (v0.length == 3 && v0.getD 1 "" == "") (v0 :: rest) with
      | error k =>
        rw [hp, exbind_err] at h
        exact absurd h (by simp)
      | ok u =>
        rw [hp, exbind_ok] at h
        exact (Except.ok.inj h).symm

/-- C10 witness: a parsed face list passes through unchanged. -/
theorem parseFace_leaves_face_unchanged_wit :
    parseFaceGo ["1/1/1", "2/2/2", "3/3/3"] [(9, 9, 9)] = .ok [(9, 9, 9)] ∧
    ([(9, 9, 9)] : List Triple) = [(9, 9, 9)] :=
  ⟨by decide,
   parseFace_leaves_face_unchanged ["1/1/1", "2/2/2", "3/3/3"] [(9, 9, 9)] [(9, 9, 9)]
     (by decide)⟩

theorem streamLoop_cons (face : List Triple) (n : Nat) (l : String) (rest : List String) :
    streamLoop face n (l :: rest) =
      match fieldsOf l with
      | [] => streamLoop face (n + 1) rest
      | f :: args =>
        match streamStep face f args with
        | none => streamLoop face (n + 1) rest
        | some k => .error ⟨n + 1, k⟩ := rfl

theorem streamLoop_cons_blank (face : List Triple) (n : Nat) (l : String)
    (rest : List String) (hfo : fieldsOf l = []) :
    streamLoop face n (l :: rest) = streamLoop face (n + 1) rest := by
  rw [streamLoop_cons, hfo]

theorem streamLoop_cons_fields (face : List Triple) (n : Nat) (l : String)
    (rest : List String) (f : String) (args : List String) (hfo : fieldsOf l = f :: args) :
    streamLoop face n (l :: rest) =
      match streamStep face f args with
      | none => streamLoop face (n + 1) rest
      | some k => .error ⟨n + 1, k⟩ := by
  rw [streamLoop_cons, hfo]

theorem parseFaceGo_face (fields : List String) (face : List Triple) :
    parseFaceGo fields face = (parseFaceGo fields []).map (fun _ => face) := by
  simp only [parseFaceGo]
  cases hs : splitVerts fields with
  | error e => simp [exbind_err, Except.map]
  | ok vs =>
    rw [exbind_ok, exbind_ok]
    cases vs with
    | nil => simp [Except.map]
    | cons v0 rest =>
      simp only
      cases hp : pfAll v0.length (v0.length == 3 && v0.getD 1 "" == "") (v0 :: rest) with
      | error k => simp [exbind_err, Except.map]
      | ok u => rw [exbind_ok, exbind_ok]; simp [Except.map, pure, Except.pure]

theorem streamStep_face (face : List Triple) (f : String) (args : List String) :
    streamStep face f args = streamStep [] f args := by
  cases he : toElem f <;> simp only [streamStep, he]
  split_ifs with hc
  · rfl
  · rw [parseFaceGo_face args face]
    cases hp : parseFaceGo args [] with
    | error k => simp [Except.map]
    | ok u => simp [Except.map]

theorem streamStep_isSome_of_elem (face : List Triple) (f : String) (args : List String)
    (h : toElem f = .pos ∨ toElem f = .tex ∨ toElem f = .nor ∨ toElem f = .fac) :
    ∃ k, streamStep face f args = some k := by
  rcases h with h | h | h | h
  · simp only [streamStep, h]
    split_ifs with hc
    · exact ⟨_, rfl⟩
    · cases hf : fillVec ["0", "0", "0", "1"] 0 args
      · exact ⟨_, rfl⟩
      · exact ⟨_, rfl⟩
  · simp only [streamStep, h]
    split_ifs with hc
    · exact ⟨_, rfl⟩
    · cases hf : fillVec ["0", "0", "0"] 0 args
      · exact ⟨_, rfl⟩
      · exact ⟨_, rfl⟩
  · simp only [streamStep, h]
    split_ifs with hc
    · exact ⟨_, rfl⟩
    · cases hf : fillVec ["0", "0", "0"] 0 args
      · exact ⟨_, rfl⟩
      · exact ⟨_, rfl⟩
  · simp only [streamStep, h]
    split_ifs with hc
    · exact ⟨_, rfl⟩
    · cases hf : parseFaceGo args face
      · exact ⟨_, rfl⟩
      · exact ⟨_, rfl⟩

theorem streamLoop_first_elem : ∀ (lines : List String) (face : List Triple) (n : Nat),
    lines.any isElemLine = true →
    ∃ k, streamLoop face n lines = .error ⟨n + lines.findIdx isElemLine + 1, k⟩ ∧
      (lineEmits (lines.getD (lines.findIdx isElemLine) "") = true → k = .nilEmit) := by
  intro lines
  induction lines with
  | nil => intro face n h; simp at h
  | cons l rest ih =>
    intro face n h
    by_cases hl : isElemLine l = true
    · have hfind : (l :: rest).findIdx isElemLine = 0 := by
        simp [List.findIdx_cons, hl]
      rcases hfo : fieldsOf l with _ | ⟨f, args⟩
      · simp only [isElemLine, hfo] at hl
        exact Bool.noConfusion hl
      · have helem : toElem f = .pos ∨ toElem f = .tex ∨ toElem f = .nor ∨ toElem f = .fac := by
          simp only [isElemLine, hfo] at hl
          cases he : toElem f
          · simp only [he] at hl
            exact Bool.noConfusion hl
          · exact Or.inl rfl
          · exact Or.inr (Or.inl rfl)
          · exact Or.inr (Or.inr (Or.inl rfl))
          · exact Or.inr (Or.inr (Or.inr rfl))
          · simp only [he] at hl
            exact Bool.noConfusion hl
        obtain ⟨k, hk⟩ := streamStep_isSome_of_elem face f args helem
        refine ⟨k, ?_, ?_⟩
        · rw [hfind, streamLoop_cons_fields face n l rest f args hfo, hk]
        · rw [hfind]
          intro hemit
          simp only [List.getD_cons_zero, lineEmits, hfo] at hemit
          have hemit2 : streamStep [] f args = some ErrKind.nilEmit :=
            of_decide_eq_true hemit
          exact Option.some.inj
            (hk.symm.trans ((streamStep_face face f args).trans hemit2))
    · have hl2 : isElemLine l = false := by
        simpa using hl
      have hfind : (l :: rest).findIdx isElemLine = rest.findIdx isElemLine + 1 := by
        simp [List.findIdx_cons, hl2]
      have hany : rest.any isElemLine = true := by
        rw [List.any_cons, hl2] at h
        simpa using h
      have hskip : streamLoop face n (l :: rest) = streamLoop face (n + 1) rest := by
        rcases hfo : fieldsOf l with _ | ⟨f, args⟩
        · exact streamLoop_cons_blank face n l rest hfo
        · have hnone : streamStep face f args = none := by
            cases he : toElem f
            · simp [streamStep, he]
            · simp [isElemLine, hfo, he] at hl2
            · simp [isElemLine, hfo, he] at hl2
            · simp [isElemLine, hfo, he] at hl2
            · simp [isElemLine, hfo, he] at hl2
            · simp [streamStep, he]
          rw [streamLoop_cons_fields face n l rest f args hfo, hnone]
      obtain ⟨k, hk, hm⟩ := ih face (n + 1) hany
      refine ⟨k, ?_, ?_⟩
      · rw [hskip, hk, hfind]
        congr 2
        omega
      · rw [hfind, List.getD_cons_succ]
        exact hm

/-- C4: on any input stream containing at least one
position/texcoord/normal/face element, `Stream` (as written, with its
four emit sinks declared but never bound) fails at the first element
line; when that line's payload parses — i.e. when `Stream` actually
reaches an emit call — the failure is precisely the nil-sink invocation
(`.nilEmit`, the modelled Go panic). No such input ever succeeds. -/
theorem stream_sinks_unbound (lines : List String) (h : lines.any isElemLine = true) :
    ∃ k, Stream lines = .error ⟨lines.findIdx isElemLine + 1, k⟩ ∧
      (lineEmits (lines.getD (lines.findIdx isElemLine) "") = true → k = .nilEmit) ∧
      Stream lines ≠ .ok () := by
  obtain ⟨k, hk, hm⟩ := streamLoop_first_elem lines [] 0 h
  have hz : (0 : Nat) + lines.findIdx isElemLine = lines.findIdx isElemLine := by omega
  rw [hz] at hk
  exact ⟨k, hk, hm, by rw [show Stream lines = streamLoop [] 0 lines from rfl, hk]; simp⟩

/-- C4 witness: the single well-formed position line `v 0 0 0` makes
`Stream` fail at line 1 with the nil-sink invocation. -/
theorem stream_sinks_unbound_wit :
    Stream ["v 0 0 0"] = .error ⟨1, .nilEmit⟩ ∧ Stream ["v 0 0 0"] ≠ .ok () := by
  obtain ⟨k, hk, hm, hne⟩ := stream_sinks_unbound ["v 0 0 0"] (by decide)
  have hk2 : k = ErrKind.nilEmit := hm (by decide)
  subst hk2
  exact ⟨hk, hne⟩

theorem decodeLoop_error_iff : ∀ (lines : List String) (o : Obj) (n m : Nat) (k : ErrKind),
    decodeLoop o n lines = .error ⟨m, k⟩ ↔
      ∃ j, j < lines.length ∧ m = n + j + 1 ∧
        ∃ o2, decodeLoop o n (lines.take j) = .ok o2 ∧
          lineStep o2 (lines.getD j "") = .error k := by
  intro lines
  induction lines with
  | nil =>
    intro o n m k
    constructor
    · intro h
      simp [decodeLoop] at h
    · rintro ⟨j, hj, -⟩
      simp at hj
  | cons l rest ih =>
    intro o n m k
    cases hls : lineStep o l with
    | error k1 =>
      have hstep : decodeLoop o n (l :: rest) = .error ⟨n + 1, k1⟩ := by
        rw [decodeLoop_cons, hls]
      constructor
      · intro h
        rw [hstep] at h
        injection h with h1
        injection h1 with h2 h3
        refine ⟨0, by simp, by omega, o, by simp [decodeLoop], ?_⟩
        rw [List.getD_cons_zero, hls, h3]
      · rintro ⟨j, hj, hline, o2, hpre, hl2⟩
        cases j with
        | zero =>
          have ho2 : o2 = o := by
            simp [decodeLoop] at hpre
            exact hpre.symm
          subst ho2
          rw [List.getD_cons_zero, hls] at hl2
          injection hl2 with hk1
          rw [hstep, hk1]
          have hm2 : m = n + 1 := by omega
          rw [hm2]
        | succ j2 =>
          rw [List.take_succ_cons, decodeLoop_cons, hls] at hpre
          exact absurd hpre (by simp)
    | ok o1 =>
      have hstep : decodeLoop o n (l :: rest) = decodeLoop o1 (n + 1) rest := by
        rw [decodeLoop_cons, hls]
      rw [hstep, ih o1 (n + 1) m k]
      constructor
      · rintro ⟨j, hj, hline, o2, hpre, hl2⟩
        refine ⟨j + 1, by simp only [List.length_cons]; omega, by omega, o2, ?_, ?_⟩
        · rw [List.take_succ_cons, decodeLoop_cons, hls]
          exact hpre
        · rw [List.getD_cons_succ]
          exact hl2
      · rintro ⟨j, hj, hline, o2, hpre, hl2⟩
        cases j with
        | zero =>
          have ho2 : o2 = o := by
            simp [decodeLoop] at hpre
            exact hpre.symm
          subst ho2
          rw [List.getD_cons_zero, hls] at hl2
          exact absurd hl2 (by simp)
        | succ j2 =>
          rw [List.take_succ_cons, decodeLoop_cons, hls] at hpre
          rw [List.getD_cons_succ] at hl2
          refine ⟨j2, by simp only [List.length_cons] at hj; omega, by omega, o2, hpre, hl2⟩

/-- C5: `Decode` is fail-fast. If it returns an error, the error's line
number is 1-based, points into the input, the strict prefix before that
line decodes cleanly, that very line's processing yields the reported
error kind — and no document is returned (the result is not `.ok` for
any document). Conversely, whenever the prefix of length `j` decodes
cleanly and line `j+1` fails, `Decode` of the whole input returns exactly
that error tagged with line `j+1`. -/
theorem decode_fail_fast (lines : List String) :
    (∀ (m : Nat) (k : ErrKind), Decode lines = .error ⟨m, k⟩ →
      (∀ o : Obj, Decode lines ≠ .ok o) ∧
      1 ≤ m ∧ m ≤ lines.length ∧
      (∃ o2, Decode (lines.take (m - 1)) = .ok o2 ∧
        lineStep o2 (lines.getD (m - 1) "") = .error k)) ∧
    (∀ (j : Nat) (o2 : Obj) (k : ErrKind), j < lines.length →
      Decode (lines.take j) = .ok o2 →
      lineStep o2 (lines.getD j "") = .error k →
      Decode lines = .error ⟨j + 1, k⟩) := by
  constructor
  · intro m k h
    obtain ⟨j, hj, hline, o2, hpre, hl2⟩ :=
      (decodeLoop_error_iff lines obj0 0 m k).mp h
    have hj2 : j = m - 1 := by omega
    subst hj2
    refine ⟨?_, by omega, by omega, o2, hpre, hl2⟩
    intro o hc
    rw [h] at hc
    exact absurd hc (by simp)
  · intro j o2 k hj hpre hl2
    exact (decodeLoop_error_iff lines obj0 0 (j + 1) k).mpr
      ⟨j, hj, by omega, o2, hpre, hl2⟩

/-- C5 witness: on `["v 0 0 0", "f 0 1 2"]` the abort direction yields
the line-2 zero-index error, and the error direction excludes any `.ok`
document. -/
theorem decode_fail_fast_wit :
    Decode zeroFaceLines = .error ⟨1 + 1, .zeroIdx⟩ ∧
    Decode zeroFaceLines ≠ .ok zeroFacePre := by
  have h2 := (decode_fail_fast zeroFaceLines).2 1 zeroFacePre .zeroIdx
    (by decide) (by decide) (by decide)
  have h1 := ((decode_fail_fast zeroFaceLines).1 2 .zeroIdx (by decide)).1 zeroFacePre
  exact ⟨h2, h1⟩

theorem kvLookup_isSome_iff (kn : List (Triple × Nat)) (t : Triple) :
    (kvLookup kn t).isSome = true ↔ t ∈ kn.map Prod.fst := by
  induction kn with
  | nil => simp [kvLookup]
  | cons p rest ih =>
    obtain ⟨a, v⟩ := p
    by_cases h : a = t
    · subst h
      simp [kvLookup]
    · simp only [kvLookup, if_neg h, List.map_cons, List.mem_cons]
      rw [ih]
      constructor
      · exact fun hm => Or.inr hm
      · rintro (hq | hm)
        · exact absurd hq.symm h
        · exact hm

theorem kvLookup_mem (kn : List (Triple × Nat)) (t : Triple) (v : Nat)
    (h : kvLookup kn t = some v) : (t, v) ∈ kn := by
  induction kn with
  | nil => simp [kvLookup] at h
  | cons p rest ih =>
    obtain ⟨a, w⟩ := p
    by_cases ha : a = t
    · subst ha
      simp only [kvLookup, if_pos rfl] at h
      injection h with hw
      subst hw
      exact List.mem_cons_self _ _
    · simp only [kvLookup, if_neg ha] at h
      exact List.mem_cons_of_mem _ (ih h)

theorem dedupVert_inv (o : Obj) (st st2 : DSt) (t : Triple) (seen : List Triple)
    (hI : Inv st seen) (h : dedupVert o st t = some st2) :
    Inv st2 (seen ++ [t]) := by
  obtain ⟨hA, hB, hC, hD, hE, hF⟩ := hI
  simp only [dedupVert] at h
  cases hkv : kvLookup st.known t with
  | some kv =>
    simp only [hkv] at h
    injection h with h2
    subst h2
    have htmem : t ∈ seen := (hA t).mp (by rw [hkv]; rfl)
    have hkvlt : kv < st.m.pos.length := hD (t, kv) (kvLookup_mem _ _ _ hkv)
    refine ⟨?_, hB, hC, hD, ?_, ?_⟩
    · intro q
      rw [hA q]
      simp only [List.mem_append, List.mem_singleton]
      constructor
      · exact fun hq => Or.inl hq
      · rintro (hq | hq)
        · exact hq
        · exact hq ▸ htmem
    · intro i hi
      simp only [List.mem_append, List.mem_singleton] at hi
      rcases hi with hi | hi
      · exact hE i hi
      · exact hi ▸ hkvlt
    · simp only [List.length_append, List.length_cons, List.length_nil]
      omega
  | none =>
    simp only [hkv] at h
    cases hp : idxGet? o.Pos t.1 with
    | none =>
      simp only [hp] at h
      exact Option.noConfusion h
    | some pv =>
      simp only [hp] at h
      cases ht : (if o.Tex.length > 0 then (idxGet? o.Tex t.2.1).map (st.m.tex ++ [·])
          else some st.m.tex) with
      | none =>
        simp only [ht] at h
        exact Option.noConfusion h
      | some tex2 =>
        simp only [ht] at h
        cases hn : (if o.Nor.length > 0 then (idxGet? o.Nor t.2.2).map (st.m.nor ++ [·])
            else some st.m.nor) with
        | none =>
          simp only [hn] at h
          exact Option.noConfusion h
        | some nor2 =>
          simp only [hn] at h
          injection h with h2
          subst h2
          have htnot : t ∉ seen := by
            intro hc
            have hs := (hA t).mpr hc
            rw [hkv] at hs
            exact Bool.noConfusion hs
          have htkeys : t ∉ st.known.map Prod.fst := by
            intro hc
            have hs := (kvLookup_isSome_iff st.known t).mpr hc
            rw [hkv] at hs
            exact Bool.noConfusion hs
          refine ⟨?_, ?_, ?_, ?_, ?_, ?_⟩
          · intro q
            simp only [kvLookup, List.mem_append, List.mem_singleton]
            by_cases hq : t = q
            · subst hq
              simp
            · rw [if_neg hq, hA q]
              constructor
              · exact fun hm => Or.inl hm
              · rintro (hm | hm)
                · exact hm
                · exact absurd hm.symm hq
          · simp only [List.map_cons]
            exact List.nodup_cons.mpr ⟨htkeys, hB⟩
          · simp only [List.length_cons, List.length_append, List.length_cons, List.length_nil]
            omega
          · intro p hp2
            simp only [List.length_append, List.length_cons, List.length_nil]
            rcases List.mem_cons.mp hp2 with hp2 | hp2
            · subst hp2
              omega
            · have := hD p hp2
              omega
          · intro i hi
            simp only [List.length_append, List.length_cons, List.length_nil]
            simp only [List.mem_append, List.mem_singleton] at hi
            rcases hi with hi | hi
            · have := hE i hi
              omega
            · subst hi
              omega
          · simp only [List.length_append, List.length_cons, List.length_nil]
            omega

theorem dedupGo_inv : ∀ (ts : List Triple) (o : Obj) (st st2 : DSt) (seen : List Triple),
    Inv st seen → dedupGo o st ts = some st2 → Inv st2 (seen ++ ts) := by
  intro ts
  induction ts with
  | nil =>
    intro o st st2 seen hI h
    simp only [dedupGo] at h
    injection h with h2
    subst h2
    simpa using hI
  | cons t ts2 ih =>
    intro o st st2 seen hI h
    simp only [dedupGo] at h
    cases hv : dedupVert o st t with
    | none =>
      simp only [hv] at h
      exact Option.noConfusion h
    | some st3 =>
      simp only [hv] at h
      have hI2 := dedupVert_inv o st st3 t seen hI hv
      have hI3 := ih o st3 st2 (seen ++ [t]) hI2 h
      simpa [List.append_assoc] using hI3

theorem inv_init : Inv ⟨[], model0⟩ [] := by
  refine ⟨fun t => ?_, ?_, rfl, ?_, ?_, rfl⟩
  · simp [kvLookup]
  · simp
  · intro p hp
    simp at hp
  · intro i hi
    simp [model0] at hi

theorem faceTriples_length : ∀ (fs : List FaceT), (faceTriples fs).length = 3 * fs.length := by
  intro fs
  induction fs with
  | nil => rfl
  | cons f fs2 ih =>
    obtain ⟨a, b, c⟩ := f
    simp only [faceTriples, List.length_cons, ih]
    omega

/-- C3 (amended): whenever the dedup stage completes without an
out-of-range attribute access (on documents the off-by-one / adjusted
sentinel defects can break that, see the counterexample), the produced
flat mesh satisfies: the index sequence has length 3 × faceCount, every
index is strictly below the flat position count, and the flat position
count equals the number of distinct (position, texcoord, normal) index
triples referenced across all faces. -/
theorem dedup_mesh_invariants (o : Obj) (m : Model) (h : loadMesh o = some m) :
    m.idx.length = 3 * o.Face.length ∧
    (∀ i ∈ m.idx, i < m.pos.length) ∧
    m.pos.length = (faceTriples o.Face).toFinset.card := by
  simp only [loadMesh] at h
  cases hg : dedupGo o ⟨[], model0⟩ (faceTriples o.Face) with
  | none =>
    simp only [hg, Option.map_none'] at h
    exact Option.noConfusion h
  | some st2 =>
    simp only [hg, Option.map_some'] at h
    have hI := dedupGo_inv (faceTriples o.Face) o ⟨[], model0⟩ st2 [] inv_init hg
    rw [List.nil_append] at hI
    obtain ⟨hA, hB, hC, hD, hE, hF⟩ := hI
    injection h with h2
    subst h2
    refine ⟨?_, hE, ?_⟩
    · rw [hF, faceTriples_length]
    · have hsets : (st2.known.map Prod.fst).toFinset = (faceTriples o.Face).toFinset := by
        ext q
        simp only [List.mem_toFinset]
        rw [← kvLookup_isSome_iff]
        exact hA q
      have hlen : (st2.known.map Prod.fst).toFinset.card = (st2.known.map Prod.fst).length :=
        List.toFinset_card_of_nodup hB
      calc st2.m.pos.length
          = st2.known.length := hC.symm
        _ = (st2.known.map Prod.fst).length := (List.length_map _ _).symm
        _ = (st2.known.map Prod.fst).toFinset.card := hlen.symm
        _ = (faceTriples o.Face).toFinset.card := by rw [hsets]

/-- C3 counterexample: `mixedTexLines` decodes successfully, yet the
dedup stage does not produce a flat mesh at all — it hits an
out-of-range `o.Tex` access (a Go run-time panic) on the adjusted
sentinel `-1` while `Tex` is non-empty. -/
theorem dedup_panics_on_decoded_doc :
    Decode mixedTexLines = .ok mixedTexObj ∧ loadMesh mixedTexObj = none :=
  ⟨by decide, by decide⟩

/-- C3 witness: a small document on which the dedup stage completes,
with the three invariants checked concretely. -/
theorem dedup_mesh_invariants_wit :
    loadMesh smallDocObj = some smallDocMesh ∧
    smallDocMesh.idx.length = 3 * smallDocObj.Face.length ∧
    smallDocMesh.pos.length = (faceTriples smallDocObj.Face).toFinset.card := by
  have h := dedup_mesh_invariants smallDocObj smallDocMesh (by decide)
  exact ⟨by decide, h.1, h.2.2⟩

end obj
